import Mathlib

/-!
Verification of the four-phase secret-rotation orchestrator
(`SecretsRotationStepActions` in `src/secret-rotation.ts`).

The TypeScript class is embedded shallowly: every store call made through the
injected `serviceClient` becomes a field of an abstract `ServiceClient`
interface whose operations are explicit state transformers
`σ → Except JsError α × σ` (a thrown error does not roll back remote state,
so the state is returned on the error path as well).  The remote store itself
is an external collaborator of the repository; a concrete model `awsClient`
of its operations is built from the spec's External Interfaces contracts.
-/

set_option maxHeartbeats 1000000
set_option linter.unusedVariables false

namespace SecretRotation

/-- Model of a thrown JavaScript error: its `name` and `message`.
`new Error(msg)` has name `"Error"`; AWS SDK service exceptions carry the
exception type as `name` (e.g. `"ResourceNotFoundException"`), which is what
line 105 of the source inspects. -/
structure JsError where
  name : String
  message : String
  deriving Repr, DecidableEq

/-- Response of `GetSecretValueCommand`, restricted to the fields the source
reads: `Name` and `SecretString` (both optional in the SDK types). -/
structure GetValueResp where
  name : Option String
  secretString : Option String
  deriving Repr, DecidableEq

/-- Response of `DescribeSecretCommand`, restricted to the fields the source
reads: `Name`, `RotationEnabled` and `VersionIdsToStages` (all optional in the
SDK types).  The stage mapping is an insertion-ordered association list,
mirroring the key order a JS `for..in` loop traverses. -/
structure DescribeResp where
  name : Option String
  rotationEnabled : Option Bool
  versionIdsToStages : Option (List (String × List String))
  deriving Repr, DecidableEq

/-- Interface of the store client the rotation actions call, one field per AWS
Secrets Manager command the source sends.  The state `σ` is the remote store
state, threaded explicitly.  Every call in the source passes the same
`args.arn` as `SecretId`, so the secret id is absorbed into the client value:
a `ServiceClient` is the view of the store at that fixed secret. -/
structure ServiceClient (σ : Type) where
  describeSecret : σ → Except JsError DescribeResp × σ
  getSecretValueByStage : String → σ → Except JsError GetValueResp × σ
  getSecretValueByIdStage : String → String → σ → Except JsError GetValueResp × σ
  putSecretValue : String → String → List String → σ → Except JsError Unit × σ
  updateSecretVersionStage : String → String → String → σ → Except JsError Unit × σ

/-- The abstract methods of `SecretsRotationStepActions` that a subclass
supplies: `generateSecret`, `setSecret`, `testSecret`.  Each receives
`StepCommandArgs` containing the store client, so each is modelled as a state
transformer on the store state. -/
structure Strategy (σ : Type) where
  generateSecret : σ → Except JsError String × σ
  setSecret : σ → Except JsError Unit × σ
  testSecret : σ → Except JsError Unit × σ

/-- Truthiness of an optional JS string: `!x` holds when the field is absent
or the empty string. -/
def falsyStr : Option String → Bool
  | none => true
  | some s => s == ""

/-- Truthiness of an optional JS boolean: `!x` holds when the field is absent
or `false`. -/
def falsyBool : Option Bool → Bool
  | none => true
  | some b => !b

/-- Body of the `catch` block of `createSecret` (source lines 104-127 after
the not-found test): generate a new secret through the subclass hook and store
it under the request token with stage label `AWSPENDING`. -/
def createSecretGenerate {σ : Type} (c : ServiceClient σ)
    (generate : σ → Except JsError String × σ) (token : String) (st : σ) :
    Except JsError Unit × σ :=
  match generate st with
  | (.error e, s) => (.error e, s)
  | (.ok new_secret, s) =>
    match c.putSecretValue token new_secret ["AWSPENDING"] s with
    | (.error e, s2) => (.error e, s2)
    | (.ok _, s2) => (.ok (), s2)

/-- `SecretsRotationStepActions.createSecret` (source lines 73-130).
The guard `!current_secret || !current_secret.SecretString` reduces to the
truthiness of `SecretString`, since the SDK always resolves with an object. -/
def createSecret {σ : Type} (c : ServiceClient σ)
    (generate : σ → Except JsError String × σ) (token : String) (st : σ) :
    Except JsError Unit × σ :=
  match c.getSecretValueByStage "AWSCURRENT" st with
  | (.error e, s) => (.error e, s)
  | (.ok current_secret, s) =>
    if falsyStr current_secret.secretString then
      (.error ⟨"Error", "No current secret"⟩, s)
    else
      match c.getSecretValueByIdStage token "AWSPENDING" s with
      | (.ok _, s2) => (.ok (), s2)
      | (.error err, s2) =>
        if err.name != "ResourceNotFoundException" then (.error err, s2)
        else createSecretGenerate c generate token s2

/-- The `for..in` loop of `finishSecret` (source lines 174-186) over the stage
mapping.  `none` models the early `return` taken when the version already
marked `AWSCURRENT` is the request token; `some cv` models leaving the loop
with `current_version = cv` — either the `break` branch set it to the first
version carrying `AWSCURRENT` that differs from the token, or the loop ran out
and it still holds the initial sentinel string `"None"`. -/
def scanLoop (token : String) : List (String × List String) → Option String
  | [] => some "None"
  | (version, stages) :: rest =>
    if stages.contains "AWSCURRENT" then
      if version == token then none else some version
    else scanLoop token rest

/-- `SecretsRotationStepActions.finishSecret` (source lines 160-206). -/
def finishSecret {σ : Type} (c : ServiceClient σ) (token : String) (st : σ) :
    Except JsError Unit × σ :=
  match c.describeSecret st with
  | (.error e, s) => (.error e, s)
  | (.ok metadata, s) =>
    match metadata.versionIdsToStages with
    | none => (.error ⟨"Error", "No VersionIdsToStages"⟩, s)
    | some versions =>
      match scanLoop token versions with
      | none => (.ok (), s)
      | some current_version =>
        if current_version == "None" then
          (.error ⟨"Error", "No matching version found in metadata."⟩, s)
        else
          match c.updateSecretVersionStage "AWSCURRENT" token current_version s with
          | (.error e, s2) => (.error e, s2)
          | (.ok _, s2) => (.ok (), s2)

/-- The dynamic dispatch `await this[step](args)` (source line 66).  The
source performs an untyped property lookup on the instance, so besides the
four phase handlers a step name can select the other methods of the class:
`generateSecret` (invoked, its string result discarded by `await` in a
statement position) and `doRotate` (re-entered with the args object in place
of an event, so `event.SecretId` is `undefined` and its first store call
fails; modelled as that failure).  A name matching no method of the class
yields `undefined` and calling it throws a `TypeError`.  Properties inherited
from `Object.prototype` are outside this model. -/
def dispatchStep {σ : Type} (c : ServiceClient σ) (strat : Strategy σ)
    (arn token step : String) (st : σ) : Except JsError Unit × σ :=
  if step == "createSecret" then createSecret c strat.generateSecret token st
  else if step == "setSecret" then strat.setSecret st
  else if step == "testSecret" then strat.testSecret st
  else if step == "finishSecret" then finishSecret c token st
  else if step == "generateSecret" then
    match strat.generateSecret st with
    | (.error e, s) => (.error e, s)
    | (.ok _, s) => (.ok (), s)
  else if step == "doRotate" then
    (.error ⟨"Error", "Cannot send command with undefined SecretId"⟩, st)
  else
    (.error ⟨"TypeError", "this[event.Step] is not a function"⟩, st)

/-- `SecretsRotationStepActions.doRotate` (source lines 22-71).  The client
construction of lines 27-31 is the ambient `c`.  Lines 46-50 and lines 52-55
test the same membership `token in versions` twice (the second message lacks
the trailing period and is unreachable); both collapse into the `none` arm of
the single lookup below, which throws the first (reachable) message. -/
def doRotate {σ : Type} (c : ServiceClient σ) (strat : Strategy σ)
    (arn token step : String) (st : σ) : Except JsError Unit × σ :=
  match c.describeSecret st with
  | (.error e, s) => (.error e, s)
  | (.ok metadata, s) =>
    if falsyBool metadata.rotationEnabled then
      (.error ⟨"Error", "Secret " ++ arn ++ " is not enabled for rotation"⟩, s)
    else
      let versions := metadata.versionIdsToStages.getD []
      match versions.find? (fun p => p.1 == token) with
      | none =>
        (.error ⟨"Error", "Secret version " ++ token ++
          " has no stage for rotation of secret " ++ arn ++ "."⟩, s)
      | some entry =>
        if entry.2.contains "AWSCURRENT" then (.ok (), s)
        else if !(entry.2.contains "AWSPENDING") then
          (.error ⟨"Error", "Secret version " ++ token ++
            " not set as AWSPENDING for rotation of secret " ++ arn ++ "."⟩, s)
        else dispatchStep c strat arn token step s

/-- A secret version held by the store: its value (`SecretString`) and its
stage labels. -/
structure VersionInfo where
  secretString : Option String
  stages : List String
  deriving Repr, DecidableEq

/-- Store-side state of the one secret every call addresses: its name, its
rotation flag, and its versions as an insertion-ordered association list
(JS object keys are unique; theorems assume `Nodup` on the keys where they
need it). -/
structure SecretRecord where
  name : String
  rotationEnabled : Option Bool
  versions : List (String × VersionInfo)
  deriving Repr, DecidableEq

/-- First entry of the association list with the given key, if any. -/
def vlookup (vs : List (String × VersionInfo)) (k : String) : Option VersionInfo :=
  (vs.find? (fun p => p.1 == k)).map (fun p => p.2)

/-- Projection of the store state to the `VersionIdsToStages` mapping. -/
def stagesView (vs : List (String × VersionInfo)) : List (String × List String) :=
  vs.map (fun p => (p.1, p.2.stages))

/-- Per-entry effect of the store's atomic stage move: the stage label is
removed from the `removeFrom` entry and appended to the `moveTo` entry;
every other entry is returned unchanged. -/
def moveStageFun (stage moveTo removeFrom : String) (p : String × VersionInfo) :
    String × VersionInfo :=
  if p.1 == removeFrom then
    (p.1, ⟨p.2.secretString, p.2.stages.filter (fun l => l != stage)⟩)
  else if p.1 == moveTo then (p.1, ⟨p.2.secretString, p.2.stages ++ [stage]⟩)
  else p

/-- Concrete model of the remote store at the fixed secret.  Modelled from
the spec (External Interfaces): the store is an external collaborator of the
repository, specified as describe / get-by-selector / conditional put /
atomic stage move.  `putSecretValue` is a conditional create keyed by the
client request token (a repeated put with the same token and value is a
no-op, a conflicting one fails); `updateSecretVersionStage` atomically
removes the stage from `removeFrom` and appends it to `moveTo` in one
transition, failing when either version is absent or the stage is not on the
source version. -/
def awsClient : ServiceClient SecretRecord where
  describeSecret := fun st =>
    (.ok ⟨some st.name, st.rotationEnabled, some (stagesView st.versions)⟩, st)
  getSecretValueByStage := fun stage st =>
    match st.versions.find? (fun p => p.2.stages.contains stage) with
    | some p => (.ok ⟨some st.name, p.2.secretString⟩, st)
    | none => (.error ⟨"ResourceNotFoundException", "no version with stage"⟩, st)
  getSecretValueByIdStage := fun vid stage st =>
    match vlookup st.versions vid with
    | some vi =>
      if vi.stages.contains stage then (.ok ⟨some st.name, vi.secretString⟩, st)
      else (.error ⟨"ResourceNotFoundException", "version does not carry stage"⟩, st)
    | none => (.error ⟨"ResourceNotFoundException", "version not found"⟩, st)
  putSecretValue := fun token value stages st =>
    match vlookup st.versions token with
    | some vi =>
      if vi.secretString == some value then (.ok (), st)
      else (.error ⟨"ResourceExistsException", "request token already used"⟩, st)
    | none =>
      (.ok (), { st with versions := st.versions ++ [(token, ⟨some value, stages⟩)] })
  updateSecretVersionStage := fun stage moveTo removeFrom st =>
    match vlookup st.versions removeFrom, vlookup st.versions moveTo with
    | some fromVi, some _ =>
      if fromVi.stages.contains stage then
        (.ok (), { st with versions := st.versions.map (moveStageFun stage moveTo removeFrom) })
      else (.error ⟨"InvalidParameterException", "stage not on source version"⟩, st)
    | _, _ => (.error ⟨"ResourceNotFoundException", "version not found"⟩, st)

/-- Number of versions of the store state carrying the given stage label. -/
def countStage (st : SecretRecord) (stage : String) : Nat :=
  st.versions.countP (fun p => p.2.stages.contains stage)

/-- A sample store state: `v1` is the active version, `v2` the staged
rotation candidate. -/
def exSt : SecretRecord :=
  { name := "db/app", rotationEnabled := some true,
    versions := [("v1", ⟨some "s1", ["AWSCURRENT"]⟩),
                 ("v2", ⟨some "s2", ["AWSPENDING"]⟩)] }

/-- A sample strategy whose hooks all succeed without touching the store. -/
def exStrat : Strategy SecretRecord :=
  { generateSecret := fun s => (.ok "gen", s),
    setSecret := fun s => (.ok (), s),
    testSecret := fun s => (.ok (), s) }

/-- The sample state after promotion of `v2`. -/
def exStDone : SecretRecord :=
  { name := "db/app", rotationEnabled := some true,
    versions := [("v1", ⟨some "s1", []⟩),
                 ("v2", ⟨some "s2", ["AWSPENDING", "AWSCURRENT"]⟩)] }

lemma contains_eq_false_iff (l : List String) (a : String) :
    l.contains a = false ↔ a ∉ l := by
  constructor
  · intro h hm
    have hc : l.contains a = true := List.elem_iff.mpr hm
    rw [hc] at h
    simp at h
  · intro h
    cases hc : l.contains a with
    | false => rfl
    | true => exact absurd (List.elem_iff.mp hc) h

lemma not_mem_filter_bne (l : List String) (a : String) :
    a ∉ l.filter (fun x => x != a) := by
  intro hm
  have := (List.mem_filter.mp hm).2
  simp at this

lemma moveStageFun_fst (stage moveTo removeFrom : String) (p : String × VersionInfo) :
    (moveStageFun stage moveTo removeFrom p).1 = p.1 := by
  unfold moveStageFun
  by_cases h1 : p.1 == removeFrom <;> by_cases h2 : p.1 == moveTo <;> simp [h1, h2]

lemma moveStageFun_other (stage moveTo removeFrom : String) (p : String × VersionInfo)
    (h1 : p.1 ≠ removeFrom) (h2 : p.1 ≠ moveTo) :
    moveStageFun stage moveTo removeFrom p = p := by
  simp [moveStageFun, h1, h2]

lemma moveStageFun_mem_current (moveTo removeFrom : String) (hne : removeFrom ≠ moveTo)
    (p : String × VersionInfo) :
    ("AWSCURRENT" ∈ (moveStageFun "AWSCURRENT" moveTo removeFrom p).2.stages) ↔
      (if p.1 = removeFrom then False
       else if p.1 = moveTo then True
       else "AWSCURRENT" ∈ p.2.stages) := by
  unfold moveStageFun
  by_cases h1 : p.1 = removeFrom
  · simp [h1, not_mem_filter_bne]
  · by_cases h2 : p.1 = moveTo
    · simp [h1, h2, Ne.symm hne]
    · simp [h1, h2]

lemma scanLoop_eq_none (t : String) (l : List (String × List String))
    (h : scanLoop t l = none) :
    ∃ s, (t, s) ∈ l ∧ "AWSCURRENT" ∈ s := by
  induction l with
  | nil => simp [scanLoop] at h
  | cons hd tl ih =>
    obtain ⟨v, s⟩ := hd
    by_cases hc : "AWSCURRENT" ∈ s
    · by_cases hv : v = t
      · exact ⟨s, by simp [hv], hc⟩
      · simp [scanLoop, hc, hv] at h
    · obtain ⟨s', hm, hc'⟩ := ih (by simpa [scanLoop, hc] using h)
      exact ⟨s', List.mem_cons_of_mem _ hm, hc'⟩

lemma scanLoop_eq_some (t cv : String) (l : List (String × List String))
    (h : scanLoop t l = some cv) (hcv : cv ≠ "None") :
    ∃ s, (cv, s) ∈ l ∧ "AWSCURRENT" ∈ s ∧ cv ≠ t := by
  induction l with
  | nil =>
    have : "None" = cv := by simpa [scanLoop] using h
    exact absurd this.symm hcv
  | cons hd tl ih =>
    obtain ⟨v, s⟩ := hd
    by_cases hc : "AWSCURRENT" ∈ s
    · by_cases hv : v = t
      · simp [scanLoop, hc, hv] at h
      · have hveq : v = cv := by simpa [scanLoop, hc, hv] using h
        exact ⟨s, by simp [hveq], hc, fun hct => hv (hveq.trans hct)⟩
    · obtain ⟨s', hm, hc', hne⟩ := ih (by simpa [scanLoop, hc] using h)
      exact ⟨s', List.mem_cons_of_mem _ hm, hc', hne⟩

lemma scanLoop_eq_none_of_unique (t : String) (l : List (String × List String))
    (hall : ∀ p ∈ l, "AWSCURRENT" ∈ p.2 → p.1 = t)
    (hex : ∃ p ∈ l, "AWSCURRENT" ∈ p.2) :
    scanLoop t l = none := by
  induction l with
  | nil => simp at hex
  | cons hd tl ih =>
    obtain ⟨v, s⟩ := hd
    by_cases hc : "AWSCURRENT" ∈ s
    · have hv : v = t := hall (v, s) (by simp) hc
      simp [scanLoop, hc, hv]
    · have hex' : ∃ p ∈ tl, "AWSCURRENT" ∈ p.2 := by
        obtain ⟨p, hp, hpc⟩ := hex
        rcases List.mem_cons.mp hp with h | h
        · rw [h] at hpc; exact absurd hpc hc
        · exact ⟨p, h, hpc⟩
      have hall' : ∀ p ∈ tl, "AWSCURRENT" ∈ p.2 → p.1 = t :=
        fun p hp => hall p (List.mem_cons_of_mem _ hp)
      simpa [scanLoop, hc] using ih hall' hex'

lemma two_le_countP {α : Type} (p : α → Bool) (l : List α) (a b : α)
    (hab : a ≠ b) (ha : a ∈ l) (hb : b ∈ l) (hpa : p a = true) (hpb : p b = true) :
    2 ≤ l.countP p := by
  induction l with
  | nil => simp at ha
  | cons c r ih =>
    rw [List.countP_cons]
    rcases List.mem_cons.mp ha with hac | har
    · have hbr : b ∈ r := by
        rcases List.mem_cons.mp hb with hbc | h
        · exact absurd (hac.trans hbc.symm) hab
        · exact h
      have h1 : 1 ≤ r.countP p := List.countP_pos_iff.mpr ⟨b, hbr, hpb⟩
      have hpc : p c = true := hac ▸ hpa
      rw [if_pos hpc]
      omega
    · rcases List.mem_cons.mp hb with hbc | hbr
      · have h1 : 1 ≤ r.countP p := List.countP_pos_iff.mpr ⟨a, har, hpa⟩
        have hpc : p c = true := hbc ▸ hpb
        rw [if_pos hpc]
        omega
      · have := ih har hbr
        omega

lemma countP_key_eq_one (l : List (String × VersionInfo)) (t : String)
    (hnd : (l.map Prod.fst).Nodup) (hm : t ∈ l.map Prod.fst) :
    l.countP (fun p => p.1 == t) = 1 := by
  induction l with
  | nil => simp at hm
  | cons hd tl ih =>
    rw [List.map_cons, List.nodup_cons] at hnd
    rw [List.countP_cons]
    by_cases ht : hd.1 = t
    · have h0 : tl.countP (fun p => p.1 == t) = 0 := by
        rw [List.countP_eq_zero]
        intro q hq hqc
        have hq1 : q.1 = t := by simpa using hqc
        have hmem : q.1 ∈ tl.map Prod.fst := List.mem_map_of_mem Prod.fst hq
        rw [hq1, ← ht] at hmem
        exact hnd.1 hmem
      simp [h0, ht]
    · have hm' : t ∈ tl.map Prod.fst := by
        rw [List.map_cons, List.mem_cons] at hm
        rcases hm with h | h
        · exact absurd h.symm ht
        · exact h
      have := ih hnd.2 hm'
      simp [ht, this]

lemma vlookup_mem (vs : List (String × VersionInfo)) (k : String) (vi : VersionInfo)
    (h : vlookup vs k = some vi) : (k, vi) ∈ vs := by
  unfold vlookup at h
  cases hf : vs.find? (fun p => p.1 == k) with
  | none => rw [hf] at h; simp at h
  | some q =>
    rw [hf] at h
    have hq : q.1 = k := by simpa using List.find?_some hf
    have : q.2 = vi := by simpa using h
    have hmem := List.mem_of_find?_eq_some hf
    rw [← hq, ← this]
    exact hmem

lemma vlookup_append_self (l : List (String × VersionInfo)) (t : String) (vi : VersionInfo)
    (h : vlookup l t = none) : vlookup (l ++ [(t, vi)]) t = some vi := by
  unfold vlookup at h ⊢
  have hf : l.find? (fun p => p.1 == t) = none := by
    cases hf : l.find? (fun p => p.1 == t) with
    | none => rfl
    | some q => rw [hf] at h; simp at h
  rw [List.find?_append, hf]
  simp [List.find?]

lemma vlookup_append_ne (l : List (String × VersionInfo)) (t v : String) (vi : VersionInfo)
    (h : v ≠ t) : vlookup (l ++ [(t, vi)]) v = vlookup l v := by
  unfold vlookup
  rw [List.find?_append]
  have hb : (t == v) = false := by simpa using Ne.symm h
  have hs : [(t, vi)].find? (fun p => p.1 == v) = none := by simp [List.find?, hb]
  rw [hs]
  cases l.find? (fun p => p.1 == v) <;> rfl

lemma find?_stagesView (vs : List (String × VersionInfo)) (t : String) :
    (stagesView vs).find? (fun p => p.1 == t) =
      (vs.find? (fun p => p.1 == t)).map (fun p => (p.1, p.2.stages)) := by
  induction vs with
  | nil => rfl
  | cons hd tl ih =>
    by_cases h : hd.1 == t
    · simp [stagesView, List.find?_cons, h]
    · simpa [stagesView, List.find?_cons, h] using ih

lemma find?_of_vlookup (vs : List (String × VersionInfo)) (k : String) (vi : VersionInfo)
    (h : vlookup vs k = some vi) :
    ∃ q, vs.find? (fun p => p.1 == k) = some q ∧ q.1 = k ∧ q.2 = vi := by
  unfold vlookup at h
  cases hf : vs.find? (fun p => p.1 == k) with
  | none => rw [hf] at h; simp at h
  | some q =>
    rw [hf] at h
    exact ⟨q, rfl, by simpa using List.find?_some hf, by simpa using h⟩

lemma mem_stagesView (vs : List (String × VersionInfo)) (q : String × List String) :
    q ∈ stagesView vs ↔ ∃ p ∈ vs, p.1 = q.1 ∧ p.2.stages = q.2 := by
  unfold stagesView
  rw [List.mem_map]
  constructor
  · rintro ⟨p, hp, rfl⟩
    exact ⟨p, hp, rfl, rfl⟩
  · rintro ⟨p, hp, h1, h2⟩
    exact ⟨p, hp, by rw [Prod.ext_iff]; exact ⟨h1, h2⟩⟩

lemma scanLoop_of_no_current (t : String) (vs : List (String × List String))
    (hall : ∀ p ∈ vs, "AWSCURRENT" ∉ p.2) : scanLoop t vs = some "None" := by
  induction vs with
  | nil => rfl
  | cons hd tl ih =>
    obtain ⟨v, s⟩ := hd
    have hc : "AWSCURRENT" ∉ s := hall (v, s) (by simp)
    have ih' := ih (fun p hp => hall p (List.mem_cons_of_mem _ hp))
    simpa [scanLoop, hc] using ih'

lemma current_entry_unique (st : SecretRecord) (hle : countStage st "AWSCURRENT" ≤ 1)
    (e : String × VersionInfo) (he : e ∈ st.versions) (hec : "AWSCURRENT" ∈ e.2.stages) :
    ∀ p ∈ st.versions, "AWSCURRENT" ∈ p.2.stages → p = e := by
  intro p hp hpc
  by_contra hne
  have h2 := two_le_countP (fun q => q.2.stages.contains "AWSCURRENT") st.versions p e hne
    hp he (List.elem_iff.mpr hpc) (List.elem_iff.mpr hec)
  simp only [countStage] at hle
  omega

lemma finishSecret_awsClient_scan_none (t : String) (st : SecretRecord)
    (h : scanLoop t (stagesView st.versions) = none) :
    finishSecret awsClient t st = (.ok (), st) := by
  simp [finishSecret, awsClient, h]

lemma finishSecret_awsClient_move (t cv : String) (st : SecretRecord)
    (fromVi tvi : VersionInfo)
    (hscan : scanLoop t (stagesView st.versions) = some cv) (hcv : cv ≠ "None")
    (hfv : vlookup st.versions cv = some fromVi)
    (hcur : "AWSCURRENT" ∈ fromVi.stages)
    (htv : vlookup st.versions t = some tvi) :
    finishSecret awsClient t st =
      (.ok (), { st with versions := st.versions.map (moveStageFun "AWSCURRENT" t cv) }) := by
  simp [finishSecret, awsClient, hscan, hcv, hfv, htv, hcur]

lemma finishSecret_ok_cases (t : String) (st st' : SecretRecord)
    (hok : finishSecret awsClient t st = (.ok (), st')) :
    (scanLoop t (stagesView st.versions) = none ∧ st' = st) ∨
    (∃ cv fromVi tvi,
      scanLoop t (stagesView st.versions) = some cv ∧ cv ≠ "None" ∧
      vlookup st.versions cv = some fromVi ∧
      "AWSCURRENT" ∈ fromVi.stages ∧
      vlookup st.versions t = some tvi ∧
      st' = { st with versions := st.versions.map (moveStageFun "AWSCURRENT" t cv) }) := by
  cases hscan : scanLoop t (stagesView st.versions) with
  | none =>
    rw [finishSecret_awsClient_scan_none t st hscan] at hok
    have hst : st = st' := by simpa using hok
    exact Or.inl ⟨rfl, hst.symm⟩
  | some cv =>
    by_cases hcv : cv = "None"
    · have heq : finishSecret awsClient t st =
          (.error ⟨"Error", "No matching version found in metadata."⟩, st) := by
        simp [finishSecret, awsClient, hscan, hcv]
      rw [heq] at hok
      simp at hok
    · cases hfv : vlookup st.versions cv with
      | none =>
        have heq : finishSecret awsClient t st =
            (.error ⟨"ResourceNotFoundException", "version not found"⟩, st) := by
          cases htv : vlookup st.versions t <;>
            simp [finishSecret, awsClient, hscan, hcv, hfv, htv]
        rw [heq] at hok
        simp at hok
      | some fromVi =>
        cases htv : vlookup st.versions t with
        | none =>
          have heq : finishSecret awsClient t st =
              (.error ⟨"ResourceNotFoundException", "version not found"⟩, st) := by
            simp [finishSecret, awsClient, hscan, hcv, hfv, htv]
          rw [heq] at hok
          simp at hok
        | some tvi =>
          by_cases hcur : "AWSCURRENT" ∈ fromVi.stages
          · rw [finishSecret_awsClient_move t cv st fromVi tvi hscan hcv hfv hcur htv] at hok
            have hst := (Prod.mk.injEq _ _ _ _).mp hok
            exact Or.inr ⟨cv, fromVi, tvi, rfl, hcv, hfv, hcur, rfl, hst.2.symm⟩
          · have hcurb : fromVi.stages.contains "AWSCURRENT" = false := by
              cases hc : fromVi.stages.contains "AWSCURRENT" with
              | false => rfl
              | true => exact absurd (List.elem_iff.mp hc) hcur
            have heq : finishSecret awsClient t st =
                (.error ⟨"InvalidParameterException", "stage not on source version"⟩, st) := by
              simp [finishSecret, awsClient, hscan, hcv, hfv, htv, hcur]
            rw [heq] at hok
            simp at hok

/-- C1: every successful invocation of `finishSecret` performs the promotion
as one single stage-move store operation — the post-state is either the
pre-state (already-promoted path) or the result of exactly one successful
`updateSecretVersionStage` call, never two separate label writes — so that
after the call exactly one version carries `AWSCURRENT`, never zero and never
two.  The hypotheses are the store's own invariants: distinct version ids and
at most one version staged `AWSCURRENT` before the call. -/
theorem finishSecret_single_move_exactly_one_current (t : String)
    (st st' : SecretRecord)
    (hnd : (st.versions.map Prod.fst).Nodup)
    (hle : countStage st "AWSCURRENT" ≤ 1)
    (hok : finishSecret awsClient t st = (.ok (), st')) :
    countStage st' "AWSCURRENT" = 1 ∧
      (st' = st ∨
        ∃ cv, awsClient.updateSecretVersionStage "AWSCURRENT" t cv st = (.ok (), st')) := by
  rcases finishSecret_ok_cases t st st' hok with ⟨hscan, hsteq⟩ |
    ⟨cv, fromVi, tvi, hscan, hcv, hfv, hcur, htv, rfl⟩
  · rw [hsteq]
    obtain ⟨s, hmem, hcs⟩ := scanLoop_eq_none t _ hscan
    obtain ⟨p, hp, hp1, hp2⟩ := (mem_stagesView _ _).mp hmem
    have h1 : 0 < countStage st "AWSCURRENT" := by
      simp only [countStage]
      refine List.countP_pos_iff.mpr ⟨p, hp, ?_⟩
      exact List.elem_iff.mpr (hp2.symm ▸ hcs)
    exact ⟨Nat.le_antisymm hle h1, Or.inl rfl⟩
  · obtain ⟨s₀, hs₀m, hs₀c, hcvt⟩ := scanLoop_eq_some t cv _ hscan hcv
    have hfm : (cv, fromVi) ∈ st.versions := vlookup_mem _ _ _ hfv
    have htm : (t, tvi) ∈ st.versions := vlookup_mem _ _ _ htv
    have huniq := current_entry_unique st hle (cv, fromVi) hfm hcur
    constructor
    · simp only [countStage, List.countP_map]
      have hcg : ∀ p ∈ st.versions,
          ((fun q => q.2.stages.contains "AWSCURRENT") ∘
            moveStageFun "AWSCURRENT" t cv) p = true ↔ (p.1 == t) = true := by
        intro p hp
        simp only [Function.comp_apply]
        constructor
        · intro hco
          have hm := (moveStageFun_mem_current t cv hcvt p).mp (List.elem_iff.mp hco)
          by_cases h1 : p.1 = cv
          · rw [if_pos h1] at hm
            exact hm.elim
          · by_cases h2 : p.1 = t
            · simpa using h2
            · rw [if_neg h1, if_neg h2] at hm
              have hpe := huniq p hp hm
              have hp1 : p.1 = cv := by rw [hpe]
              exact absurd hp1 h1
        · intro hbt
          have h2 : p.1 = t := by simpa using hbt
          have h1 : ¬ p.1 = cv := by rw [h2]; exact fun hc => hcvt hc.symm
          refine List.elem_iff.mpr ((moveStageFun_mem_current t cv hcvt p).mpr ?_)
          rw [if_neg h1, if_pos h2]
          trivial
      rw [List.countP_congr hcg]
      exact countP_key_eq_one st.versions t hnd (List.mem_map_of_mem Prod.fst htm)
    · exact Or.inr ⟨cv, by simp [awsClient, hfv, htv, hcur]⟩

/-- Witness for C1: promoting `v2` over the current `v1` in the sample store
yields a state with exactly one `AWSCURRENT` version, produced by a single
stage-move operation. -/
theorem finishSecret_single_move_exactly_one_current_witness :
    countStage exStDone "AWSCURRENT" = 1 ∧
      (exStDone = exSt ∨
        ∃ cv, awsClient.updateSecretVersionStage "AWSCURRENT" "v2" cv exSt =
          (.ok (), exStDone)) :=
  finishSecret_single_move_exactly_one_current "v2" exSt exStDone
    (by decide) (by decide) (by rfl)

/-- C4: invoking `finishSecret` twice for the same token performs the store
stage-move at most once — after a first successful call, the second call
finds the version holding `AWSCURRENT` equal to the token and returns without
issuing another stage-move, leaving the store state unchanged. -/
theorem finishSecret_stage_move_at_most_once (t : String) (st st₁ : SecretRecord)
    (hnd : (st.versions.map Prod.fst).Nodup)
    (hle : countStage st "AWSCURRENT" ≤ 1)
    (hok : finishSecret awsClient t st = (.ok (), st₁)) :
    finishSecret awsClient t st₁ = (.ok (), st₁) := by
  rcases finishSecret_ok_cases t st st₁ hok with ⟨hscan, hsteq⟩ |
    ⟨cv, fromVi, tvi, hscan, hcv, hfv, hcur, htv, rfl⟩
  · rw [hsteq]
    rw [hsteq] at hok
    exact hok
  · obtain ⟨s₀, hs₀m, hs₀c, hcvt⟩ := scanLoop_eq_some t cv _ hscan hcv
    have hfm : (cv, fromVi) ∈ st.versions := vlookup_mem _ _ _ hfv
    have htm : (t, tvi) ∈ st.versions := vlookup_mem _ _ _ htv
    have huniq := current_entry_unique st hle (cv, fromVi) hfm hcur
    apply finishSecret_awsClient_scan_none
    apply scanLoop_eq_none_of_unique
    · intro q hq hqc
      obtain ⟨p', hp', hp'1, hp'2⟩ := (mem_stagesView _ _).mp hq
      obtain ⟨p, hp, rfl⟩ := List.mem_map.mp hp'
      rw [← hp'2] at hqc
      have hmc := (moveStageFun_mem_current t cv hcvt p).mp hqc
      by_cases h1 : p.1 = cv
      · rw [if_pos h1] at hmc
        exact hmc.elim
      · by_cases h2 : p.1 = t
        · rw [← hp'1, moveStageFun_fst]
          exact h2
        · rw [if_neg h1, if_neg h2] at hmc
          have hpe := huniq p hp hmc
          have hp1 : p.1 = cv := by rw [hpe]
          exact absurd hp1 h1
    · refine ⟨((moveStageFun "AWSCURRENT" t cv (t, tvi)).1,
        (moveStageFun "AWSCURRENT" t cv (t, tvi)).2.stages), ?_, ?_⟩
      · exact (mem_stagesView _ _).mpr
          ⟨moveStageFun "AWSCURRENT" t cv (t, tvi), List.mem_map_of_mem _ htm, rfl, rfl⟩
      · refine (moveStageFun_mem_current t cv hcvt (t, tvi)).mpr ?_
        rw [if_neg (fun h => hcvt h.symm), if_pos rfl]
        trivial

/-- Witness for C4: a replayed `finishSecret` for `v2` after promotion in the
sample store is a no-op success. -/
theorem finishSecret_stage_move_at_most_once_witness :
    finishSecret awsClient "v2" exStDone = (.ok (), exStDone) :=
  finishSecret_stage_move_at_most_once "v2" exSt exStDone (by decide) (by decide) (by rfl)

/-- A sample store state holding a version that carries neither `AWSCURRENT`
nor `AWSPENDING` (it carries `AWSPREVIOUS` only). -/
def stPrev : SecretRecord :=
  { name := "db/app", rotationEnabled := some true,
    versions := [("v1", ⟨some "s1", ["AWSCURRENT"]⟩),
                 ("v0", ⟨some "s0", ["AWSPREVIOUS"]⟩)] }

/-- C3: when the requested version already carries stage `AWSCURRENT`, the
dispatcher returns successfully as a no-op for every step name and every
strategy: no phase handler runs and the store state is unchanged. -/
theorem doRotate_noop_when_already_current (strat : Strategy SecretRecord)
    (arn t step : String) (st : SecretRecord) (vi : VersionInfo)
    (hen : falsyBool st.rotationEnabled = false)
    (hvl : vlookup st.versions t = some vi)
    (hcur : vi.stages.contains "AWSCURRENT" = true) :
    doRotate awsClient strat arn t step st = (.ok (), st) := by
  obtain ⟨q, hq, hq1, hq2⟩ := find?_of_vlookup _ _ _ hvl
  have hfs : (stagesView st.versions).find? (fun p => p.1 == t) =
      some (q.1, q.2.stages) := by
    rw [find?_stagesView, hq]
    rfl
  have hcur' : "AWSCURRENT" ∈ vi.stages := List.elem_iff.mp hcur
  simp [doRotate, awsClient, hen, hfs, hq2, hcur']

/-- Witness for C3: a `createSecret` request for the already-current version
`v1` of the sample store is a successful no-op. -/
theorem doRotate_noop_when_already_current_witness :
    doRotate awsClient exStrat "arn0" "v1" "createSecret" exSt = (.ok (), exSt) :=
  doRotate_noop_when_already_current exStrat "arn0" "v1" "createSecret" exSt
    ⟨some "s1", ["AWSCURRENT"]⟩ (by decide) (by rfl) (by decide)

/-- C7: when the requested version is present in the stage mapping but its
stage-label set contains neither `AWSCURRENT` nor `AWSPENDING`, the dispatcher
rejects the request with the not-pending error before invoking any phase
handler, for every step name and every strategy, leaving the state unchanged. -/
theorem doRotate_rejects_not_pending (strat : Strategy SecretRecord)
    (arn t step : String) (st : SecretRecord) (vi : VersionInfo)
    (hen : falsyBool st.rotationEnabled = false)
    (hvl : vlookup st.versions t = some vi)
    (hnc : vi.stages.contains "AWSCURRENT" = false)
    (hnp : vi.stages.contains "AWSPENDING" = false) :
    doRotate awsClient strat arn t step st =
      (.error ⟨"Error", "Secret version " ++ t ++
        " not set as AWSPENDING for rotation of secret " ++ arn ++ "."⟩, st) := by
  obtain ⟨q, hq, hq1, hq2⟩ := find?_of_vlookup _ _ _ hvl
  have hfs : (stagesView st.versions).find? (fun p => p.1 == t) =
      some (q.1, q.2.stages) := by
    rw [find?_stagesView, hq]
    rfl
  have hnc' : "AWSCURRENT" ∉ vi.stages := (contains_eq_false_iff _ _).mp hnc
  have hnp' : "AWSPENDING" ∉ vi.stages := (contains_eq_false_iff _ _).mp hnp
  simp [doRotate, awsClient, hen, hfs, hq2, hnc', hnp']

/-- Witness for C7: requesting any phase for version `v0`, which carries only
`AWSPREVIOUS`, is rejected with the not-pending error. -/
theorem doRotate_rejects_not_pending_witness :
    doRotate awsClient exStrat "arn0" "v0" "createSecret" stPrev =
      (.error ⟨"Error", "Secret version " ++ "v0" ++
        " not set as AWSPENDING for rotation of secret " ++ "arn0" ++ "."⟩, stPrev) :=
  doRotate_rejects_not_pending exStrat "arn0" "v0" "createSecret" stPrev
    ⟨some "s0", ["AWSPREVIOUS"]⟩ (by decide) (by rfl) (by decide) (by decide)

/-- C8 counterexample: the claim says every step name other than the four
phases fails with the unknown-step error, but the untyped dispatch
`this[step]` resolves `"generateSecret"` to the generator method of the
class, so with valid staging the dispatcher invokes it and returns
successfully instead of failing. -/
theorem doRotate_generateSecret_step_succeeds :
    doRotate awsClient exStrat "arn0" "v2" "generateSecret" exSt = (.ok (), exSt) := by
  rfl

/-- C8 (amended): a step name that names no method of the rotation class
(neither one of the four phases nor `generateSecret` nor `doRotate`) makes
the dispatch fail — with a `TypeError` from calling an `undefined` property,
not with a dedicated unknown-step error — before any store mutation. -/
theorem doRotate_unknown_step_typeError (strat : Strategy SecretRecord)
    (arn t step : String) (st : SecretRecord) (vi : VersionInfo)
    (hen : falsyBool st.rotationEnabled = false)
    (hvl : vlookup st.versions t = some vi)
    (hnc : vi.stages.contains "AWSCURRENT" = false)
    (hp : vi.stages.contains "AWSPENDING" = true)
    (h1 : step ≠ "createSecret") (h2 : step ≠ "setSecret")
    (h3 : step ≠ "testSecret") (h4 : step ≠ "finishSecret")
    (h5 : step ≠ "generateSecret") (h6 : step ≠ "doRotate") :
    doRotate awsClient strat arn t step st =
      (.error ⟨"TypeError", "this[event.Step] is not a function"⟩, st) := by
  obtain ⟨q, hq, hq1, hq2⟩ := find?_of_vlookup _ _ _ hvl
  have hfs : (stagesView st.versions).find? (fun p => p.1 == t) =
      some (q.1, q.2.stages) := by
    rw [find?_stagesView, hq]
    rfl
  have hnc' : "AWSCURRENT" ∉ vi.stages := (contains_eq_false_iff _ _).mp hnc
  have hp' : "AWSPENDING" ∈ vi.stages := List.elem_iff.mp hp
  have hd : doRotate awsClient strat arn t step st =
      dispatchStep awsClient strat arn t step st := by
    simp [doRotate, awsClient, hen, hfs, hq2, hnc', hp']
  rw [hd]
  simp [dispatchStep, h1, h2, h3, h4, h5, h6]

/-- Witness for the amended C8: the step name `"deleteSecret"` names no
method of the class and the dispatch fails with a `TypeError`. -/
theorem doRotate_unknown_step_typeError_witness :
    doRotate awsClient exStrat "arn0" "v2" "deleteSecret" exSt =
      (.error ⟨"TypeError", "this[event.Step] is not a function"⟩, exSt) :=
  doRotate_unknown_step_typeError exStrat "arn0" "v2" "deleteSecret" exSt
    ⟨some "s2", ["AWSPENDING"]⟩ (by decide) (by rfl) (by decide) (by decide)
    (by decide) (by decide) (by decide) (by decide) (by decide) (by decide)

/-- A sample store state before a rotation starts: only the active version
`v1` exists. -/
def c2St : SecretRecord :=
  { name := "db/app", rotationEnabled := some true,
    versions := [("v1", ⟨some "s1", ["AWSCURRENT"]⟩)] }

/-- C2: `createSecret` is idempotent.  On a fresh token the first invocation
generates and stores exactly one `AWSPENDING` value; the second invocation,
finding the `AWSPENDING` value already staged at the token, succeeds without
calling the generator (the result is the same for every generator `g2`) and
without issuing any store write (the state is returned unchanged). -/
theorem createSecret_idempotent (st : SecretRecord) (pc : String × VersionInfo)
    (s t v : String) (g : SecretRecord → Except JsError String × SecretRecord)
    (h1 : st.versions.find? (fun p => p.2.stages.contains "AWSCURRENT") = some pc)
    (h2 : pc.2.secretString = some s) (h3 : s ≠ "")
    (h4 : vlookup st.versions t = none)
    (hp0 : countStage st "AWSPENDING" = 0)
    (hg : g st = (.ok v, st)) :
    createSecret awsClient g t st =
      (.ok (), { st with versions := st.versions ++ [(t, ⟨some v, ["AWSPENDING"]⟩)] }) ∧
    countStage { st with versions := st.versions ++ [(t, ⟨some v, ["AWSPENDING"]⟩)] }
      "AWSPENDING" = 1 ∧
    ∀ g2, createSecret awsClient g2 t
        { st with versions := st.versions ++ [(t, ⟨some v, ["AWSPENDING"]⟩)] } =
      (.ok (), { st with versions := st.versions ++ [(t, ⟨some v, ["AWSPENDING"]⟩)] }) := by
  have hfal : falsyStr pc.2.secretString = false := by
    rw [h2]
    simpa [falsyStr] using h3
  refine ⟨?_, ?_, ?_⟩
  · simp only [createSecret, createSecretGenerate, awsClient]
    rw [h1]
    simp [hfal, h4, hg]
  · simp only [countStage] at hp0
    simp only [countStage]
    rw [List.countP_append, hp0]
    simp [List.countP_cons]
  · intro g2
    have hf2 : List.find? (fun p => p.2.stages.contains "AWSCURRENT")
        (st.versions ++ [(t, VersionInfo.mk (some v) ["AWSPENDING"])]) = some pc := by
      rw [List.find?_append, h1]
      rfl
    have hvt : vlookup (st.versions ++ [(t, VersionInfo.mk (some v) ["AWSPENDING"])]) t =
        some (VersionInfo.mk (some v) ["AWSPENDING"]) := vlookup_append_self _ _ _ h4
    simp only [createSecret, awsClient]
    rw [hf2]
    simp [hfal, hvt]

/-- Witness for C2 at the sample pre-rotation store. -/
theorem createSecret_idempotent_witness :
    createSecret awsClient (fun s => (.ok "gen", s)) "v2" c2St =
      (.ok (), { c2St with versions :=
        c2St.versions ++ [("v2", ⟨some "gen", ["AWSPENDING"]⟩)] }) ∧
    countStage { c2St with versions :=
      c2St.versions ++ [("v2", ⟨some "gen", ["AWSPENDING"]⟩)] } "AWSPENDING" = 1 ∧
    ∀ g2, createSecret awsClient g2 "v2"
        { c2St with versions := c2St.versions ++ [("v2", ⟨some "gen", ["AWSPENDING"]⟩)] } =
      (.ok (), { c2St with versions :=
        c2St.versions ++ [("v2", ⟨some "gen", ["AWSPENDING"]⟩)] }) :=
  createSecret_idempotent c2St ("v1", VersionInfo.mk (some "s1") ["AWSCURRENT"]) "s1" "v2" "gen"
    (fun s => (.ok "gen", s)) rfl rfl (by decide) rfl (by decide) rfl

/-- C5: inside `createSecret`, the failure of the `AWSPENDING` read is
swallowed exactly when its error name is `ResourceNotFoundException` (in
which case the phase proceeds to generation); every other failure of that
read propagates out of `createSecret` unchanged, with no store write after
it.  This holds for every client and every generator. -/
theorem createSecret_only_notFound_swallowed {σ : Type} (c : ServiceClient σ)
    (g : σ → Except JsError String × σ) (t : String) (st st1 st2 : σ)
    (resp : GetValueResp) (e : JsError)
    (h1 : c.getSecretValueByStage "AWSCURRENT" st = (.ok resp, st1))
    (h2 : falsyStr resp.secretString = false)
    (h3 : c.getSecretValueByIdStage t "AWSPENDING" st1 = (.error e, st2)) :
    createSecret c g t st =
      (if e.name != "ResourceNotFoundException" then (.error e, st2)
       else createSecretGenerate c g t st2) := by
  simp only [createSecret]
  rw [h1]
  simp [h2, h3]

/-- A client over a trivial state whose pending-version read fails with an
error that is not a not-found condition. -/
def c5Client : ServiceClient Unit :=
  { describeSecret := fun s => (.ok ⟨some "db/app", some true, some []⟩, s),
    getSecretValueByStage := fun _ s => (.ok ⟨some "db/app", some "cur"⟩, s),
    getSecretValueByIdStage := fun _ _ s => (.error ⟨"AccessDeniedException", "denied"⟩, s),
    putSecretValue := fun _ _ _ s => (.ok (), s),
    updateSecretVersionStage := fun _ _ _ s => (.ok (), s) }

/-- Witness for C5: an access-denied failure of the pending read propagates
out of `createSecret` unchanged. -/
theorem createSecret_only_notFound_swallowed_witness :
    createSecret c5Client (fun s => (.ok "gen", s)) "v2" () =
      (if (⟨"AccessDeniedException", "denied"⟩ : JsError).name != "ResourceNotFoundException"
       then (.error ⟨"AccessDeniedException", "denied"⟩, ())
       else createSecretGenerate c5Client (fun s => (.ok "gen", s)) "v2" ()) :=
  createSecret_only_notFound_swallowed c5Client (fun s => (.ok "gen", s)) "v2" () () ()
    ⟨some "db/app", some "cur"⟩ ⟨"AccessDeniedException", "denied"⟩ rfl (by decide) rfl

/-- C6: when the `AWSCURRENT` read succeeds but carries no usable value (the
`SecretString` field is absent or empty), `createSecret` fails with the
no-current-secret error before any generation and before any store write:
the state is returned unchanged and the result does not depend on the
generator. -/
theorem createSecret_fails_noCurrent (g : SecretRecord → Except JsError String × SecretRecord)
    (t : String) (st : SecretRecord) (pc : String × VersionInfo)
    (h1 : st.versions.find? (fun p => p.2.stages.contains "AWSCURRENT") = some pc)
    (h2 : falsyStr pc.2.secretString = true) :
    createSecret awsClient g t st = (.error ⟨"Error", "No current secret"⟩, st) := by
  simp only [createSecret, awsClient]
  rw [h1]
  simp [h2]

/-- A store whose current version carries no `SecretString` value. -/
def c6St : SecretRecord :=
  { name := "db/app", rotationEnabled := some true,
    versions := [("v1", ⟨none, ["AWSCURRENT"]⟩)] }

/-- Witness for C6: a value-less current version makes `createSecret` fail
with the no-current-secret error, before any generation and any write. -/
theorem createSecret_fails_noCurrent_witness :
    createSecret awsClient (fun s => (.ok "gen", s)) "v2" c6St =
      (.error ⟨"Error", "No current secret"⟩, c6St) :=
  createSecret_fails_noCurrent (fun s => (.ok "gen", s)) "v2" c6St
    ("v1", VersionInfo.mk none ["AWSCURRENT"]) rfl rfl

/-- C9: the only store mutation `createSecret` can ever issue is the single
conditional put of the generated value under the request token with stage
`AWSPENDING`: in every execution (for every state and every state-preserving
generator) the final store state is either unchanged or extended by exactly
that one entry, and the value and stage labels of every version other than
the token — in particular of the version holding `AWSCURRENT` — are left
unchanged. -/
theorem createSecret_frame (g : SecretRecord → Except JsError String × SecretRecord)
    (t v : String) (st : SecretRecord)
    (hg : ∀ s, (g s).2 = s) (hv : v ≠ t) :
    vlookup (createSecret awsClient g t st).2.versions v = vlookup st.versions v ∧
      ((createSecret awsClient g t st).2 = st ∨
        ∃ nv, (createSecret awsClient g t st).2 =
          { st with versions := st.versions ++ [(t, ⟨some nv, ["AWSPENDING"]⟩)] }) := by
  have main : (createSecret awsClient g t st).2 = st ∨
      ∃ nv, (createSecret awsClient g t st).2 =
        { st with versions := st.versions ++ [(t, ⟨some nv, ["AWSPENDING"]⟩)] } := by
    cases hf : st.versions.find? (fun p => p.2.stages.contains "AWSCURRENT") with
    | none =>
      left
      simp only [createSecret, awsClient]
      rw [hf]
    | some pc =>
      by_cases hfal : falsyStr pc.2.secretString
      · left
        simp only [createSecret, awsClient]
        rw [hf]
        simp [hfal]
      · cases hvt : vlookup st.versions t with
        | some vi =>
          by_cases hpend : vi.stages.contains "AWSPENDING"
          · have hpend2 : "AWSPENDING" ∈ vi.stages := List.elem_iff.mp hpend
            left
            simp only [createSecret, awsClient]
            rw [hf]
            simp [hfal, hvt, hpend2]
          · have hpend2 : "AWSPENDING" ∉ vi.stages :=
              fun hm => hpend (List.elem_iff.mpr hm)
            rcases hgst : g st with ⟨r, s2⟩
            have hs2 : s2 = st := by
              have hh := hg st
              rw [hgst] at hh
              exact hh
            subst hs2
            cases r with
            | error e =>
              left
              simp only [createSecret, createSecretGenerate, awsClient]
              rw [hf]
              simp [hfal, hvt, hpend2, hgst]
            | ok nv =>
              by_cases hps : vi.secretString = some nv
              · left
                simp only [createSecret, createSecretGenerate, awsClient]
                rw [hf]
                simp [hfal, hvt, hpend2, hgst, hps]
              · left
                simp only [createSecret, createSecretGenerate, awsClient]
                rw [hf]
                simp [hfal, hvt, hpend2, hgst, hps]
        | none =>
          rcases hgst : g st with ⟨r, s2⟩
          have hs2 : s2 = st := by
            have hh := hg st
            rw [hgst] at hh
            exact hh
          subst hs2
          cases r with
          | error e =>
            left
            simp only [createSecret, createSecretGenerate, awsClient]
            rw [hf]
            simp [hfal, hvt, hgst]
          | ok nv =>
            right
            refine ⟨nv, ?_⟩
            simp only [createSecret, createSecretGenerate, awsClient]
            rw [hf]
            simp [hfal, hvt, hgst]
  refine ⟨?_, main⟩
  rcases main with h | ⟨nv, h⟩
  · rw [h]
  · rw [h]
    exact vlookup_append_ne _ _ _ _ hv

/-- Witness for C9 at the sample pre-rotation store: generating for `v2`
leaves `v1` untouched and the post-state is exactly the one-entry extension. -/
theorem createSecret_frame_witness :
    vlookup (createSecret awsClient (fun s => (.ok "gen", s)) "v2" c2St).2.versions "v1" =
      vlookup c2St.versions "v1" ∧
      ((createSecret awsClient (fun s => (.ok "gen", s)) "v2" c2St).2 = c2St ∨
        ∃ nv, (createSecret awsClient (fun s => (.ok "gen", s)) "v2" c2St).2 =
          { c2St with versions := c2St.versions ++ [("v2", ⟨some nv, ["AWSPENDING"]⟩)] }) :=
  createSecret_frame (fun s => (.ok "gen", s)) "v2" "v1" c2St (fun s => rfl) (by decide)

/-- C10: `finishSecret` is atomic on its two validation errors.  For every
client whose metadata read is a pure read (it returns the state unchanged),
if the version-to-stages mapping is missing, or if no version in the mapping
carries `AWSCURRENT`, `finishSecret` throws the corresponding error and the
store state is exactly what it was before the call: the stage move is only
reached after both checks pass. -/
theorem finishSecret_error_atomic {σ : Type} (c : ServiceClient σ) (t : String)
    (st : σ) (md : DescribeResp)
    (hdesc : c.describeSecret st = (.ok md, st)) :
    (md.versionIdsToStages = none →
      finishSecret c t st = (.error ⟨"Error", "No VersionIdsToStages"⟩, st)) ∧
    (∀ vs, md.versionIdsToStages = some vs →
      (∀ p ∈ vs, "AWSCURRENT" ∉ p.2) →
      finishSecret c t st =
        (.error ⟨"Error", "No matching version found in metadata."⟩, st)) := by
  constructor
  · intro hnone
    simp only [finishSecret]
    rw [hdesc]
    simp [hnone]
  · intro vs hsome hall
    have hscan := scanLoop_of_no_current t vs hall
    simp only [finishSecret]
    rw [hdesc]
    simp [hsome, hscan]

/-- A client over a trivial state whose metadata lists a single version that
carries only `AWSPREVIOUS`. -/
def c10Client : ServiceClient Unit :=
  { describeSecret := fun s =>
      (.ok ⟨some "db/app", some true, some [("v1", ["AWSPREVIOUS"])]⟩, s),
    getSecretValueByStage := fun _ s => (.error ⟨"ServiceUnavailable", "down"⟩, s),
    getSecretValueByIdStage := fun _ _ s => (.error ⟨"ServiceUnavailable", "down"⟩, s),
    putSecretValue := fun _ _ _ s => (.error ⟨"ServiceUnavailable", "down"⟩, s),
    updateSecretVersionStage := fun _ _ _ s => (.error ⟨"ServiceUnavailable", "down"⟩, s) }

/-- Witness for C10 against the trivial-state client. -/
theorem finishSecret_error_atomic_witness :
    ((⟨some "db/app", some true, some [("v1", ["AWSPREVIOUS"])]⟩ : DescribeResp).versionIdsToStages = none →
      finishSecret c10Client "v2" () = (.error ⟨"Error", "No VersionIdsToStages"⟩, ())) ∧
    (∀ vs, (⟨some "db/app", some true, some [("v1", ["AWSPREVIOUS"])]⟩ : DescribeResp).versionIdsToStages = some vs →
      (∀ p ∈ vs, "AWSCURRENT" ∉ p.2) →
      finishSecret c10Client "v2" () =
        (.error ⟨"Error", "No matching version found in metadata."⟩, ())) :=
  finishSecret_error_atomic c10Client "v2" ()
    ⟨some "db/app", some true, some [("v1", ["AWSPREVIOUS"])]⟩ rfl

end SecretRotation
